import Mathlib

set_option maxRecDepth 8192

/-!
Verification of the real-time broadcast hub of the inventory-system
repository (`internal/realtime/hub.go`).

The hub is embedded shallowly as a labeled transition system:
* `SendChan` models a Go buffered channel `chan []byte` with capacity 256
  (`clientBufCap`); sending on a closed channel and closing a closed channel
  are panics, modelled with `Option` (`none` = panic).
* `HubState` models the `Hub` struct: the `clients` registry (a list of
  client identities with set semantics), every client's `send` channel
  (a total map from client identity), and the buffered `broadcast` channel
  (capacity 256).
* The arms of `Hub.Run`'s `select`, the publish entry points
  (`BroadcastJSONMessage`, `BroadcastStockUpdate`) and the connection
  construction in `ServeWsUpgrade` become step functions; `HubTr` is the
  induced labeled transition relation and `Reach` the states reachable from
  the freshly constructed hub (`NewHub`).
* `ConnState` models the lifecycle of one client's `writePump`/`readPump`
  goroutines and its transport.
-/

namespace InventoryHub

/-- Client identity: models the `*Client` pointer used as the key of the
`clients` map in `hub.go`. -/
abbrev ClientId := Nat

/-- A wire message: models the `[]byte` JSON payloads carried by the
`broadcast` and `send` channels. -/
abbrev Msg := String

/-- Capacity of each client's `send` channel: `make(chan []byte, 256)` in
`ServeWsUpgrade`. -/
def clientBufCap : Nat := 256

/-- Capacity of the hub's `broadcast` channel: `make(chan []byte, 256)` in
`NewHub`. -/
def broadcastCap : Nat := 256

/-- A Go buffered channel of messages: its queued contents and whether it has
been closed. -/
structure SendChan where
  buf : List Msg
  closed : Bool
deriving DecidableEq

/-- A freshly made channel: `make(chan []byte, 256)` — empty and open. -/
def SendChan.mk0 : SendChan := ⟨[], false⟩

/-- `close(ch)`: closing an already-closed channel panics (`none`). -/
def closeChan (ch : SendChan) : Option SendChan :=
  if ch.closed then none else some { ch with closed := true }

/-- The non-blocking send `select { case ch <- m: default: }` from the
broadcast arm of `Hub.Run`: panics (`none`) if the channel is closed,
enqueues if there is room, silently drops the message otherwise. -/
def trySend (m : Msg) (ch : SendChan) : Option SendChan :=
  if ch.closed then none
  else if ch.buf.length < clientBufCap then some { ch with buf := ch.buf ++ [m] }
  else some ch

/-- The effect of `trySend` on an open channel: enqueue if there is room,
drop otherwise. -/
def trySendTotal (m : Msg) (ch : SendChan) : SendChan :=
  if ch.buf.length < clientBufCap then { ch with buf := ch.buf ++ [m] } else ch

/-- The hub's state: the `clients` registry, every client's `send` channel
(total map over identities; unused identities map to a fresh channel), the
buffered `broadcast` channel, and the set of identities ever used for a
client (Go pointers are never reused, which `created` records). -/
structure HubState where
  registry : List ClientId
  chans : ClientId → SendChan
  broadcast : List Msg
  created : List ClientId

/-- `NewHub()`: empty registry, empty broadcast queue, no clients yet. -/
def initHub : HubState :=
  { registry := [], chans := fun _ => SendChan.mk0, broadcast := [], created := [] }

/-- Pointwise update of the channel map. -/
def upd (f : ClientId → SendChan) (c : ClientId) (v : SendChan) : ClientId → SendChan :=
  fun x => if x = c then v else f x

/-- `ServeWsUpgrade` + the `register` arm of `Hub.Run`: a new client is
created with a fresh open channel and inserted into the registry
(`h.clients[client] = true`). -/
def connectStep (c : ClientId) (s : HubState) : HubState :=
  { s with
    registry := if c ∈ s.registry then s.registry else c :: s.registry
    chans := upd s.chans c SendChan.mk0
    created := c :: s.created }

/-- The `unregister` arm of `Hub.Run`: if the client is registered, delete it
from the registry and `close(client.send)`; otherwise do nothing.  `none`
models the panic a double close would raise. -/
def unregisterStep (c : ClientId) (s : HubState) : Option HubState :=
  if c ∈ s.registry then
    match closeChan (s.chans c) with
    | none => none
    | some ch => some { s with registry := s.registry.erase c, chans := upd s.chans c ch }
  else some s

/-- `Hub.BroadcastJSONMessage`: non-blocking send on the `broadcast` channel;
if the channel is full the message is dropped and the call still returns
(the function is total and never yields an error value). -/
def broadcastJSONMessage (m : Msg) (s : HubState) : HubState :=
  if s.broadcast.length < broadcastCap then { s with broadcast := s.broadcast ++ [m] } else s

/-- The fan-out loop in the broadcast arm of `Hub.Run`: iterate the
registered clients and attempt a non-blocking send to each one's channel.
`none` models a panic (send on a closed channel). -/
def fanout (m : Msg) : List ClientId → (ClientId → SendChan) → Option (ClientId → SendChan)
  | [], f => some f
  | c :: cs, f =>
    match trySend m (f c) with
    | none => none
    | some ch => fanout m cs (upd f c ch)

/-- The broadcast arm of `Hub.Run`: receive the oldest queued message from
the `broadcast` channel and fan it out to every registered client.  When the
queue is empty the loop just keeps waiting (identity). -/
def deliverStep (s : HubState) : Option HubState :=
  match s.broadcast with
  | [] => some s
  | m :: rest =>
    match fanout m s.registry s.chans with
    | none => none
    | some f => some { s with chans := f, broadcast := rest }

/-- Labels of hub transitions. -/
inductive HubLabel where
  | connect (c : ClientId)
  | disconnect (c : ClientId)
  | publish (m : Msg)
  | deliver
deriving DecidableEq

/-- One processed hub request.  A `connect` uses a fresh client identity
(Go allocates a new `*Client` for every upgrade); `disconnect` and `deliver`
require the corresponding step not to panic. -/
inductive HubTr : HubState → HubLabel → HubState → Prop where
  | connect (c : ClientId) (s : HubState) :
      c ∉ s.created → HubTr s (.connect c) (connectStep c s)
  | disconnect (c : ClientId) (s s' : HubState) :
      unregisterStep c s = some s' → HubTr s (.disconnect c) s'
  | publish (m : Msg) (s : HubState) :
      HubTr s (.publish m) (broadcastJSONMessage m s)
  | deliver (s s' : HubState) :
      deliverStep s = some s' → HubTr s .deliver s'

/-- States reachable from the freshly constructed hub. -/
inductive Reach : HubState → Prop where
  | init : Reach initHub
  | step (s : HubState) (l : HubLabel) (s' : HubState) :
      Reach s → HubTr s l s' → Reach s'

/-- Multi-step reachability between two states. -/
def ReachFrom (s s' : HubState) : Prop :=
  Relation.ReflTransGen (fun a b => ∃ l, HubTr a l b) s s'

/-- The hub invariant: the registry is duplicate-free, every registered
client's channel is open, registered clients were created, and identities
never used still map to a fresh channel. -/
def Inv (s : HubState) : Prop :=
  s.registry.Nodup ∧
  (∀ c ∈ s.registry, (s.chans c).closed = false) ∧
  (∀ c ∈ s.registry, c ∈ s.created) ∧
  (∀ c, c ∉ s.created → s.chans c = SendChan.mk0)

/-! ### Timeout constants (`hub.go` lines 15–27) -/

/-- One nanosecond, the unit of Go's `time.Duration`. -/
def nanosecond : Nat := 1

/-- `time.Second` in nanoseconds. -/
def second : Nat := 1000000000 * nanosecond

/-- `writeWait = 10 * time.Second`. -/
def writeWait : Nat := 10 * second

/-- `pongWait = 60 * time.Second`. -/
def pongWait : Nat := 60 * second

/-- `pingPeriod = (pongWait * 9) / 10`. -/
def pingPeriod : Nat := (pongWait * 9) / 10

/-- `maxMessageSize = 512`. -/
def maxMessageSize : Nat := 512

/-! ### Basic channel lemmas -/

theorem trySend_open (m : Msg) (ch : SendChan) (h : ch.closed = false) :
    trySend m ch = some (trySendTotal m ch) := by
  simp only [trySend, trySendTotal, h, Bool.false_eq_true, if_false]
  split <;> rfl

theorem trySendTotal_closed (m : Msg) (ch : SendChan) :
    (trySendTotal m ch).closed = ch.closed := by
  unfold trySendTotal
  split <;> rfl

/-! ### C9: timeout constants -/

/-- C9: the write deadline is exactly 10 seconds, the pong/read deadline is
exactly 60 seconds, and the ping period is `(pongWait * 9) / 10 = 54`
seconds, i.e. exactly 90% of the read deadline and strictly less than it. -/
theorem timeout_constants :
    writeWait = 10 * second ∧
    pongWait = 60 * second ∧
    pingPeriod = 54 * second ∧
    pingPeriod * 10 = pongWait * 9 ∧
    pingPeriod < pongWait := by
  refine ⟨rfl, rfl, ?_, ?_, ?_⟩ <;> decide

/-! ### C1: publish is non-blocking and drops on a full queue -/

/-- C1: `BroadcastJSONMessage` is a total function (it always returns, with
no error value): it never touches the registry or any subscriber channel;
when the fan-out queue is full the state is left entirely unchanged (the
event is dropped); otherwise the event is appended to the queue.  This holds
for every state, including an empty registry and full subscriber buffers. -/
theorem publish_never_blocks (m : Msg) (s : HubState) :
    (broadcastJSONMessage m s).registry = s.registry ∧
    (broadcastJSONMessage m s).chans = s.chans ∧
    (broadcastCap ≤ s.broadcast.length → broadcastJSONMessage m s = s) ∧
    (s.broadcast.length < broadcastCap →
      (broadcastJSONMessage m s).broadcast = s.broadcast ++ [m]) := by
  unfold broadcastJSONMessage
  split
  case isTrue h =>
    exact ⟨rfl, rfl, fun hfull => absurd h (by omega), fun _ => rfl⟩
  case isFalse h =>
    exact ⟨rfl, rfl, fun _ => rfl, fun hlt => absurd hlt h⟩

/-- A hub state whose fan-out queue is full (256 queued messages). -/
def fullQueueState : HubState :=
  { registry := [], chans := fun _ => SendChan.mk0,
    broadcast := List.replicate 256 "m", created := [] }

theorem publish_never_blocks_witness :
    broadcastCap ≤ fullQueueState.broadcast.length ∧
    broadcastJSONMessage "e" fullQueueState = fullQueueState ∧
    initHub.broadcast.length < broadcastCap ∧
    (broadcastJSONMessage "e" initHub).broadcast = [] ++ ["e"] :=
  ⟨by simp [fullQueueState, broadcastCap],
   (publish_never_blocks "e" fullQueueState).2.2.1 (by simp [fullQueueState, broadcastCap]),
   by simp [initHub, broadcastCap],
   (publish_never_blocks "e" initHub).2.2.2 (by simp [initHub, broadcastCap])⟩

/-! ### Fan-out characterization -/

/-- When every targeted channel is open and the target list is
duplicate-free, fan-out never panics and each target's channel receives the
message through `trySendTotal`; channels outside the list are untouched. -/
theorem fanout_eq (m : Msg) (cs : List ClientId) : ∀ f : ClientId → SendChan,
    cs.Nodup → (∀ c ∈ cs, (f c).closed = false) →
    fanout m cs f = some (fun c => if c ∈ cs then trySendTotal m (f c) else f c) := by
  induction cs with
  | nil =>
    intro f _ _
    simp [fanout]
  | cons a cs ih =>
    intro f hnd hopen
    have ha : (f a).closed = false := hopen a (List.mem_cons_self a cs)
    have hna : a ∉ cs := (List.nodup_cons.mp hnd).1
    have hnd' : cs.Nodup := (List.nodup_cons.mp hnd).2
    have hopen' : ∀ c ∈ cs, ((upd f a (trySendTotal m (f a))) c).closed = false := by
      intro c hc
      have hne : c ≠ a := fun h => hna (h ▸ hc)
      simp only [upd, hne, if_false]
      exact hopen c (List.mem_cons_of_mem a hc)
    rw [fanout, trySend_open m (f a) ha]
    show fanout m cs (upd f a (trySendTotal m (f a))) = _
    rw [ih (upd f a (trySendTotal m (f a))) hnd' hopen']
    congr 1
    funext c
    by_cases hc : c = a
    · subst hc
      simp [upd, hna]
    · simp only [upd, hc, if_false, List.mem_cons]
      by_cases hcs : c ∈ cs <;> simp [hcs, hc]

/-- One-message delivery characterized: under the invariant's channel-openness
(and nodup), the broadcast arm consumes the head of the queue and applies
`trySendTotal` to exactly the registered clients. -/
theorem deliver_char (s : HubState) (m : Msg) (rest : List Msg)
    (hnd : s.registry.Nodup) (hopen : ∀ c ∈ s.registry, (s.chans c).closed = false)
    (hb : s.broadcast = m :: rest) :
    deliverStep s = some
      { s with
        chans := fun c => if c ∈ s.registry then trySendTotal m (s.chans c) else s.chans c
        broadcast := rest } := by
  have hf := fanout_eq m s.registry s.chans hnd hopen
  simp only [deliverStep, hb, hf]

/-! ### Invariant preservation -/

theorem inv_init : Inv initHub := by
  refine ⟨List.nodup_nil, ?_, ?_, ?_⟩ <;> simp [initHub]

theorem inv_connect (c : ClientId) (s : HubState) (hfresh : c ∉ s.created)
    (hinv : Inv s) : Inv (connectStep c s) := by
  obtain ⟨hnd, hopen, hmem, hfreshch⟩ := hinv
  have hcr : c ∉ s.registry := fun hc => hfresh (hmem c hc)
  unfold connectStep Inv
  simp only [hcr, if_false]
  refine ⟨List.nodup_cons.mpr ⟨hcr, hnd⟩, ?_, ?_, ?_⟩
  · intro d hd
    rcases List.mem_cons.mp hd with h | h
    · subst h
      simp [upd, SendChan.mk0]
    · have hne : d ≠ c := fun he => hcr (he ▸ h)
      simp only [upd, hne, if_false]
      exact hopen d h
  · intro d hd
    rcases List.mem_cons.mp hd with h | h
    · exact h ▸ List.mem_cons_self c s.created
    · exact List.mem_cons_of_mem c (hmem d h)
  · intro d hd
    have hne : d ≠ c := fun he => hd (he ▸ List.mem_cons_self c s.created)
    have hd' : d ∉ s.created := fun h => hd (List.mem_cons_of_mem c h)
    simp only [upd, hne, if_false]
    exact hfreshch d hd'

theorem inv_unregister (c : ClientId) (s s' : HubState)
    (h : unregisterStep c s = some s') (hinv : Inv s) : Inv s' := by
  obtain ⟨hnd, hopen, hmem, hfreshch⟩ := hinv
  unfold unregisterStep at h
  by_cases hc : c ∈ s.registry
  · have hoc : (s.chans c).closed = false := hopen c hc
    simp only [hc, if_true, closeChan, hoc, Bool.false_eq_true, if_false] at h
    injection h with h
    subst h
    refine ⟨hnd.erase c, ?_, ?_, ?_⟩
    · intro d hd
      have hdc : d ≠ c ∧ d ∈ s.registry := (hnd.mem_erase_iff).mp hd
      simp only [upd, hdc.1, if_false]
      exact hopen d hdc.2
    · intro d hd
      exact hmem d ((hnd.mem_erase_iff).mp hd).2
    · intro d hd
      have hdc : d ≠ c := fun he => hd (he ▸ hmem c hc)
      simp only [upd, hdc, if_false]
      exact hfreshch d hd
  · simp only [hc, if_false, Option.some.injEq] at h
    subst h
    exact ⟨hnd, hopen, hmem, hfreshch⟩

theorem inv_publish (m : Msg) (s : HubState) (hinv : Inv s) :
    Inv (broadcastJSONMessage m s) := by
  obtain ⟨hnd, hopen, hmem, hfreshch⟩ := hinv
  unfold broadcastJSONMessage
  split <;> exact ⟨hnd, hopen, hmem, hfreshch⟩

theorem inv_deliver (s s' : HubState) (h : deliverStep s = some s')
    (hinv : Inv s) : Inv s' := by
  obtain ⟨hnd, hopen, hmem, hfreshch⟩ := hinv
  rcases hb : s.broadcast with _ | ⟨m, rest⟩
  · unfold deliverStep at h
    rw [hb] at h
    injection h with h
    subst h
    exact ⟨hnd, hopen, hmem, hfreshch⟩
  · rw [deliver_char s m rest hnd hopen hb] at h
    injection h with h
    subst h
    refine ⟨hnd, ?_, hmem, ?_⟩
    · intro d hd
      simp only [hd, if_true]
      rw [trySendTotal_closed]
      exact hopen d hd
    · intro d hd
      have hdr : d ∉ s.registry := fun hr => hd (hmem d hr)
      simp only [hdr, if_false]
      exact hfreshch d hd

theorem inv_step (s : HubState) (l : HubLabel) (s' : HubState)
    (h : HubTr s l s') (hinv : Inv s) : Inv s' := by
  cases h with
  | connect c s hfresh => exact inv_connect c s hfresh hinv
  | disconnect c s s' hu => exact inv_unregister c s s' hu hinv
  | publish m s => exact inv_publish m s hinv
  | deliver s s' hd => exact inv_deliver s s' hd hinv

/-- Every reachable hub state satisfies the invariant. -/
theorem reach_inv (s : HubState) (h : Reach s) : Inv s := by
  induction h with
  | init => exact inv_init
  | step s l s' _ htr ih => exact inv_step s l s' htr ih

/-! ### Closed-flag preservation helpers -/

/-- A channel closed in a state is closed after any single hub step, the
client stays out of the registry, and only the disconnect arm for that very
client ever closes a channel. -/
theorem closed_persists_step (s : HubState) (l : HubLabel) (s' : HubState)
    (c : ClientId) (htr : HubTr s l s') (hinv : Inv s)
    (hcl : (s.chans c).closed = true) :
    (s'.chans c).closed = true ∧ c ∉ s'.registry := by
  obtain ⟨hnd, hopen, hmem, hfreshch⟩ := hinv
  have hcr : c ∉ s.registry := by
    intro hr
    rw [hopen c hr] at hcl
    exact Bool.false_ne_true hcl
  have hcc : c ∈ s.created := by
    by_contra hnc
    rw [hfreshch c hnc] at hcl
    exact Bool.false_ne_true hcl
  cases htr with
  | connect d s hfresh =>
    have hdc : c ≠ d := fun he => hfresh (he ▸ hcc)
    constructor
    · simp only [connectStep, upd, hdc, if_false]
      exact hcl
    · simp only [connectStep]
      split
      · exact hcr
      · intro hmem'
        rcases List.mem_cons.mp hmem' with h | h
        · exact hdc h
        · exact hcr h
  | disconnect d s s' hu =>
    unfold unregisterStep at hu
    by_cases hd : d ∈ s.registry
    · have hod : (s.chans d).closed = false := hopen d hd
      simp only [hd, if_true, closeChan, hod, Bool.false_eq_true, if_false] at hu
      injection hu with hu
      subst hu
      have hdc : c ≠ d := by
        intro he
        rw [he, hod] at hcl
        exact Bool.false_ne_true hcl
      refine ⟨?_, ?_⟩
      · simp only [upd, hdc, if_false]
        exact hcl
      · intro hmem'
        exact hcr (List.mem_of_mem_erase hmem')
    · simp only [hd, if_false, Option.some.injEq] at hu
      subst hu
      exact ⟨hcl, hcr⟩
  | publish m s =>
    unfold broadcastJSONMessage
    split <;> exact ⟨hcl, hcr⟩
  | deliver s s' hd =>
    rcases hb : s.broadcast with _ | ⟨m, rest⟩
    · simp only [deliverStep, hb, Option.some.injEq] at hd
      subst hd
      exact ⟨hcl, hcr⟩
    · rw [deliver_char s m rest hnd hopen hb, Option.some.injEq] at hd
      subst hd
      refine ⟨?_, hcr⟩
      simp only [if_neg hcr]
      exact hcl

/-- The invariant transfers along multi-step reachability. -/
theorem inv_many (s s' : HubState) (h : ReachFrom s s') (hinv : Inv s) : Inv s' := by
  induction h with
  | refl => exact hinv
  | tail hab hbc ih =>
    obtain ⟨l, htr⟩ := hbc
    exact inv_step _ l _ htr ih

/-- A closed channel stays closed along every execution, and its client never
reappears in the registry. -/
theorem closed_persists_many (s s' : HubState) (c : ClientId)
    (h : ReachFrom s s') (hinv : Inv s) (hcl : (s.chans c).closed = true) :
    (s'.chans c).closed = true ∧ c ∉ s'.registry := by
  induction h with
  | refl =>
    refine ⟨hcl, fun hr => ?_⟩
    rw [hinv.2.1 c hr] at hcl
    exact Bool.false_ne_true hcl
  | @tail b b' hab hbc ih =>
    obtain ⟨l, htr⟩ := hbc
    exact closed_persists_step b l b' c htr (inv_many s b hab hinv) ih.1

/-- Only the disconnect arm for client `c` ever closes `c`'s channel. -/
theorem closed_only_by_disconnect (s : HubState) (l : HubLabel) (s' : HubState)
    (c : ClientId) (htr : HubTr s l s') (hinv : Inv s)
    (h0 : (s.chans c).closed = false)
    (h1 : (s'.chans c).closed = true) : l = .disconnect c := by
  obtain ⟨hnd, hopen, hmem, hfreshch⟩ := hinv
  cases htr with
  | connect d s hfresh =>
    exfalso
    by_cases hcd : c = d
    · subst hcd
      simp [connectStep, upd, SendChan.mk0] at h1
    · simp only [connectStep, upd, hcd, if_false] at h1
      rw [h0] at h1
      exact Bool.false_ne_true h1
  | disconnect d s s' hu =>
    unfold unregisterStep at hu
    by_cases hd : d ∈ s.registry
    · rw [if_pos hd] at hu
      rcases hc : closeChan (s.chans d) with _ | ch
      · rw [hc] at hu
        exact absurd hu (by simp)
      · rw [hc] at hu
        injection hu with hu
        subst hu
        by_cases hcd : c = d
        · rw [hcd]
        · exfalso
          simp only [upd, hcd, if_false] at h1
          rw [h0] at h1
          exact Bool.false_ne_true h1
    · exfalso
      simp only [hd, if_false, Option.some.injEq] at hu
      subst hu
      rw [h0] at h1
      exact Bool.false_ne_true h1
  | publish m s =>
    exfalso
    unfold broadcastJSONMessage at h1
    split at h1 <;> (rw [h0] at h1; exact Bool.false_ne_true h1)
  | deliver s s' hd =>
    exfalso
    rcases hb : s.broadcast with _ | ⟨m, rest⟩
    · simp only [deliverStep, hb, Option.some.injEq] at hd
      subst hd
      rw [h0] at h1
      exact Bool.false_ne_true h1
    · rw [deliver_char s m rest hnd hopen hb, Option.some.injEq] at hd
      subst hd
      by_cases hcr : c ∈ s.registry
      · simp only [if_pos hcr] at h1
        rw [trySendTotal_closed, h0] at h1
        exact Bool.false_ne_true h1
      · simp only [if_neg hcr] at h1
        rw [h0] at h1
        exact Bool.false_ne_true h1

/-! ### Concrete states used by the witnesses -/

/-- The hub right after one client (identity 0) has connected. -/
def st1 : HubState := connectStep 0 initHub

theorem reach_st1 : Reach st1 :=
  Reach.step initHub (.connect 0) st1 Reach.init
    (HubTr.connect 0 initHub (by simp [initHub]))

/-- `st1` after one message has been published (queued for fan-out). -/
def st2 : HubState := broadcastJSONMessage "e" st1

theorem reach_st2 : Reach st2 :=
  Reach.step st1 (.publish "e") st2 reach_st1 (HubTr.publish "e" st1)

/-! ### C2: deregistration is idempotent -/

/-- The state produced by the unregister arm when the client is registered:
the client is deleted from the registry and its channel marked closed. -/
def unregEffect (c : ClientId) (s : HubState) : HubState :=
  { s with
    registry := s.registry.erase c
    chans := upd s.chans c { buf := (s.chans c).buf, closed := true } }

/-- C2: in any reachable hub state with client `c` registered, the first
deregister request succeeds without panicking, removes `c` from the registry
and closes its channel; every other client's channel and the broadcast queue
are untouched; and a second deregister request for `c` is a no-op that
changes nothing, closes nothing again, and does not panic. -/
theorem unregister_idempotent (c : ClientId) (s : HubState)
    (hreach : Reach s) (hc : c ∈ s.registry) :
    unregisterStep c s = some (unregEffect c s) ∧
    c ∉ (unregEffect c s).registry ∧
    ((unregEffect c s).chans c).closed = true ∧
    (unregEffect c s).registry = s.registry.erase c ∧
    (∀ d, d ≠ c → (unregEffect c s).chans d = s.chans d) ∧
    (unregEffect c s).broadcast = s.broadcast ∧
    unregisterStep c (unregEffect c s) = some (unregEffect c s) := by
  obtain ⟨hnd, hopen, hmem, hfreshch⟩ := reach_inv s hreach
  have hoc : (s.chans c).closed = false := hopen c hc
  have hnotmem : c ∉ s.registry.erase c := fun hm => ((hnd.mem_erase_iff).mp hm).1 rfl
  refine ⟨?_, hnotmem, ?_, rfl, ?_, rfl, ?_⟩
  · simp only [unregisterStep, hc, if_true, closeChan, hoc, Bool.false_eq_true, if_false,
      unregEffect]
  · simp [unregEffect, upd]
  · intro d hd
    simp [unregEffect, upd, hd]
  · simp only [unregisterStep, unregEffect, hnotmem, if_false]

theorem unregister_idempotent_witness :
    unregisterStep 0 st1 = some (unregEffect 0 st1) ∧
    0 ∉ (unregEffect 0 st1).registry ∧
    ((unregEffect 0 st1).chans 0).closed = true ∧
    unregisterStep 0 (unregEffect 0 st1) = some (unregEffect 0 st1) := by
  have h := unregister_idempotent 0 st1 reach_st1 (by simp [st1, connectStep, initHub])
  exact ⟨h.1, h.2.1, h.2.2.1, h.2.2.2.2.2.2⟩

/-! ### C3: per-subscriber drop is frame-preserving -/

/-- The state produced by fanning the queue head out to all registered
clients. -/
def fanoutEffect (m : Msg) (rest : List Msg) (s : HubState) : HubState :=
  { s with
    chans := fun c => if c ∈ s.registry then trySendTotal m (s.chans c) else s.chans c
    broadcast := rest }

/-- C3: when the broadcast arm processes one queued event in a reachable
state, it never panics; the registry and the client-creation history are
unchanged; a registered client with a full buffer keeps its channel exactly
as it was (the event is dropped for it alone, and it is not deregistered); a
registered client with room receives the event appended to its buffer; and
clients outside the registry are untouched. -/
theorem fanout_frame (s : HubState) (m : Msg) (rest : List Msg)
    (hreach : Reach s) (hb : s.broadcast = m :: rest) :
    deliverStep s = some (fanoutEffect m rest s) ∧
    (fanoutEffect m rest s).registry = s.registry ∧
    (fanoutEffect m rest s).created = s.created ∧
    (fanoutEffect m rest s).broadcast = rest ∧
    (∀ c ∈ s.registry, clientBufCap ≤ (s.chans c).buf.length →
      (fanoutEffect m rest s).chans c = s.chans c) ∧
    (∀ c ∈ s.registry, (s.chans c).buf.length < clientBufCap →
      ((fanoutEffect m rest s).chans c).buf = (s.chans c).buf ++ [m]) ∧
    (∀ c, c ∉ s.registry → (fanoutEffect m rest s).chans c = s.chans c) := by
  obtain ⟨hnd, hopen, hmem, hfreshch⟩ := reach_inv s hreach
  refine ⟨deliver_char s m rest hnd hopen hb, rfl, rfl, rfl, ?_, ?_, ?_⟩
  · intro c hcr hfull
    simp only [fanoutEffect, if_pos hcr, trySendTotal]
    rw [if_neg (by omega)]
  · intro c hcr hroom
    simp only [fanoutEffect, if_pos hcr, trySendTotal, if_pos hroom]
  · intro c hcr
    simp only [fanoutEffect, if_neg hcr]

theorem fanout_frame_witness :
    deliverStep st2 = some (fanoutEffect "e" [] st2) ∧
    (fanoutEffect "e" [] st2).registry = st2.registry ∧
    (fanoutEffect "e" [] st2).broadcast = [] := by
  have h := fanout_frame st2 "e" [] reach_st2
    (by simp [st2, st1, broadcastJSONMessage, connectStep, initHub, broadcastCap])
  exact ⟨h.1, h.2.1, h.2.2.2.1⟩

/-! ### C4: registry/buffer invariant -/

/-- C4: in every reachable hub state, (a) the registry never contains a
client whose channel has been closed; (b) a channel open in the current
state is only ever closed by the disconnect (deregistration) arm for that
very client — no other step, in particular none driven by the client's own
pumps, closes it; and (c) once a client's channel is closed it stays closed
along every execution and the client is never re-registered. -/
theorem hub_registry_invariant (s : HubState) (hreach : Reach s) :
    (∀ c ∈ s.registry, (s.chans c).closed = false) ∧
    (∀ (l : HubLabel) (s' : HubState) (c : ClientId), HubTr s l s' →
      (s.chans c).closed = false → (s'.chans c).closed = true →
      l = .disconnect c) ∧
    (∀ (s' : HubState) (c : ClientId), ReachFrom s s' →
      (s.chans c).closed = true → (s'.chans c).closed = true ∧ c ∉ s'.registry) := by
  have hinv := reach_inv s hreach
  exact ⟨hinv.2.1,
    fun l s' c htr => closed_only_by_disconnect s l s' c htr hinv,
    fun s' c hrf hcl => closed_persists_many s s' c hrf hinv hcl⟩

theorem hub_registry_invariant_witness :
    ((st1.chans 0).closed = false) :=
  (hub_registry_invariant st1 reach_st1).1 0 (by simp [st1, connectStep, initHub])

/-! ### Connection lifecycle (`Client.writePump` / `Client.readPump`) -/

/-- The observable lifecycle state of one client's two pump goroutines and
its transport. -/
structure ConnState where
  writeRunning : Bool
  readRunning : Bool
  transportClosed : Bool
  unregRequested : Bool
deriving DecidableEq

/-- How a connection is detected as dead in `hub.go`: a `WriteMessage`
error in `writePump`, a failed ping write in `writePump`, a read error in
`readPump`, or a read-deadline expiry surfacing as a read error. -/
inductive DeathCause where
  | writeError
  | pingError
  | readError
  | readDeadline
deriving DecidableEq

/-- `writePump` hitting a failed write (message or ping): the loop returns
and its deferred cleanup closes the transport; it does not request
deregistration itself. -/
def writePumpFail (s : ConnState) : ConnState :=
  { s with writeRunning := false, transportClosed := true }

/-- `readPump` leaving its read loop: the deferred cleanup sends the client
on `hub.unregister` and closes the transport. -/
def readPumpExit (s : ConnState) : ConnState :=
  { s with readRunning := false, transportClosed := true, unregRequested := true }

/-- The immediate effect of each death cause on the connection. -/
def applyCause : DeathCause → ConnState → ConnState
  | .writeError, s => writePumpFail s
  | .pingError, s => writePumpFail s
  | .readError, s => readPumpExit s
  | .readDeadline, s => readPumpExit s

/-- One iteration of `readPump`'s loop: once the transport is closed,
`ReadMessage` must fail, so the loop breaks and the deferred cleanup runs;
on an open transport the loop keeps waiting. -/
def readPumpStep (s : ConnState) : ConnState :=
  if s.transportClosed then readPumpExit s else s

/-- A death cause followed by the read loop's forced next iteration when it
is still running. -/
def connTeardown (d : DeathCause) (s : ConnState) : ConnState :=
  if (applyCause d s).readRunning then readPumpStep (applyCause d s) else applyCause d s

/-- C5: (a) for every connection whose read loop is running, every death
cause — write error, ping failure, read error, or read-deadline expiry —
leads, after at most one more forced read-loop iteration, to a state where
deregistration has been requested, the transport is closed and the read
loop has stopped (in particular a write error alone closes the transport,
which forces the read loop to fail and deregister); (b) processing that
deregistration request in a reachable hub state with the client registered
succeeds and removes exactly that client; (c) the deregistration touches no
other client's channel, no other client's registry membership, and not the
publishers' fan-out queue. -/
theorem dead_connection_deregisters :
    (∀ (cs : ConnState) (d : DeathCause), cs.readRunning = true →
      (connTeardown d cs).unregRequested = true ∧
      (connTeardown d cs).transportClosed = true ∧
      (connTeardown d cs).readRunning = false) ∧
    (∀ (s : HubState) (c : ClientId), Reach s → c ∈ s.registry →
      unregisterStep c s = some (unregEffect c s) ∧
      c ∉ (unregEffect c s).registry) ∧
    (∀ (s s' : HubState) (c : ClientId), unregisterStep c s = some s' →
      s'.broadcast = s.broadcast ∧
      (∀ d, d ≠ c → s'.chans d = s.chans d) ∧
      (∀ d, d ≠ c → (d ∈ s'.registry ↔ d ∈ s.registry))) := by
  refine ⟨?_, ?_, ?_⟩
  · intro cs d hread
    cases d <;>
      simp [connTeardown, applyCause, writePumpFail, readPumpExit, readPumpStep, hread]
  · intro s c hreach hc
    obtain ⟨hnd, hopen, hmem, hfreshch⟩ := reach_inv s hreach
    have hoc : (s.chans c).closed = false := hopen c hc
    refine ⟨?_, fun hm => ((hnd.mem_erase_iff).mp hm).1 rfl⟩
    simp only [unregisterStep, hc, if_true, closeChan, hoc, Bool.false_eq_true, if_false,
      unregEffect]
  · intro s s' c h
    unfold unregisterStep at h
    by_cases hc : c ∈ s.registry
    · rw [if_pos hc] at h
      rcases hcc : closeChan (s.chans c) with _ | ch
      · rw [hcc] at h
        exact absurd h (by simp)
      · rw [hcc] at h
        injection h with h
        subst h
        refine ⟨rfl, ?_, ?_⟩
        · intro d hd
          simp [upd, hd]
        · intro d hd
          exact List.mem_erase_of_ne hd
    · rw [if_neg hc] at h
      injection h with h
      subst h
      exact ⟨rfl, fun _ _ => rfl, fun _ _ => Iff.rfl⟩

theorem dead_connection_deregisters_witness :
    (connTeardown .writeError ⟨true, true, false, false⟩).unregRequested = true ∧
    (connTeardown .writeError ⟨true, true, false, false⟩).transportClosed = true ∧
    unregisterStep 0 st1 = some (unregEffect 0 st1) ∧
    (unregEffect 0 st1).broadcast = st1.broadcast := by
  have h1 := dead_connection_deregisters.1 ⟨true, true, false, false⟩ .writeError rfl
  have h2 := dead_connection_deregisters.2.1 st1 0 reach_st1
    (by simp [st1, connectStep, initHub])
  have h3 := dead_connection_deregisters.2.2 st1 (unregEffect 0 st1) 0 h2.1
  exact ⟨h1.1, h1.2.1, h2.1, h3.1⟩

/-! ### Stock-update encoding (C6, C7, C10) -/

/-- Modelled from the spec: the repository's `internal/domain` message
definitions (`StockUpdatePayload`, `WebSocketMessage`,
`StockUpdateMessageType`) are not among the provided sources; per the
spec's wire shape the payload carries the item id, the SKU and the new
quantity. -/
structure StockUpdatePayload where
  id : String
  sku : String
  newQuantity : Int
deriving DecidableEq

/-- JSON string-literal escaping for the two characters that must always be
escaped (quote and backslash). -/
def escapeChar (c : Char) : String :=
  if c = '"' then "\\\"" else if c = '\\' then "\\\\" else String.singleton c

/-- Escape every character of a string for a JSON string literal. -/
def escapeString (s : String) : String :=
  String.join (s.toList.map escapeChar)

/-- A JSON string literal: quotes around the escaped contents. -/
def encodeJsonString (s : String) : String :=
  "\"" ++ escapeString s ++ "\""

/-- Modelled from the spec: Go's `json.Marshal` of
`WebSocketMessage{Type: StockUpdateMessageType, Payload: payload}`, whose
wire shape the spec fixes as
`\x7b"type":"STOCK_UPDATE","payload":\x7b"id":…,"sku":…,"new_quantity":…\x7d\x7d`
with fields emitted in declaration order as Go does. -/
def marshalStockUpdate (p : StockUpdatePayload) : Msg :=
  "\x7b\"type\":\"STOCK_UPDATE\",\"payload\":\x7b\"id\":" ++ encodeJsonString p.id ++
    ",\"sku\":" ++ encodeJsonString p.sku ++
    ",\"new_quantity\":" ++ toString p.newQuantity ++ "\x7d\x7d"

/-- `Hub.BroadcastStockUpdate` from the point where `json.Marshal` has
returned: on a marshal error the function only logs and returns, touching
nothing; on success the bytes go to `BroadcastJSONMessage`. -/
def broadcastStockUpdateWith (r : Except String Msg) (s : HubState) : HubState :=
  match r with
  | .error _ => s
  | .ok bytes => broadcastJSONMessage bytes s

/-- `Hub.BroadcastStockUpdate`: marshal the websocket message once and hand
the bytes to `BroadcastJSONMessage` (marshaling this string/string/int
struct always succeeds in Go). -/
def broadcastStockUpdate (p : StockUpdatePayload) (s : HubState) : HubState :=
  broadcastStockUpdateWith (.ok (marshalStockUpdate p)) s

/-- The exact wire bytes the spec prescribes for the round-trip example. -/
def stockUpdateWire : Msg :=
  "\x7b\"type\":\"STOCK_UPDATE\",\"payload\":\x7b\"id\":\"abc\",\"sku\":\"SKU1\",\"new_quantity\":42\x7d\x7d"

/-- C10: if marshaling fails inside `BroadcastStockUpdate`, the call is a
silent no-op: it returns normally (the function is total — no panic),
enqueues nothing on the fan-out queue, and leaves the registry and every
subscriber buffer exactly as they were. -/
theorem marshal_failure_is_noop (e : String) (s : HubState) :
    broadcastStockUpdateWith (.error e) s = s := rfl

/-- C6: publishing the stock-update event `id="abc"`, `sku="SKU1"`,
`new_quantity=42` marshals to exactly the spec's wire bytes
`\x7b"type":"STOCK_UPDATE","payload":\x7b"id":"abc","sku":"SKU1","new_quantity":42\x7d\x7d`,
and once the coordination loop fans the published event out, every
currently-registered subscriber with buffer room has exactly that
byte-sequence appended to its outbound buffer. -/
theorem stock_update_roundtrip (s : HubState) (hreach : Reach s)
    (hb : s.broadcast = []) :
    marshalStockUpdate ⟨"abc", "SKU1", 42⟩ = stockUpdateWire ∧
    deliverStep (broadcastStockUpdate ⟨"abc", "SKU1", 42⟩ s) =
      some (fanoutEffect stockUpdateWire []
        (broadcastStockUpdate ⟨"abc", "SKU1", 42⟩ s)) ∧
    (∀ c ∈ s.registry, (s.chans c).buf.length < clientBufCap →
      ((fanoutEffect stockUpdateWire []
          (broadcastStockUpdate ⟨"abc", "SKU1", 42⟩ s)).chans c).buf
        = (s.chans c).buf ++ [stockUpdateWire]) := by
  obtain ⟨hnd, hopen, hmem, hfreshch⟩ := reach_inv s hreach
  have hmar : marshalStockUpdate ⟨"abc", "SKU1", 42⟩ = stockUpdateWire := by decide
  have hs1 : broadcastStockUpdate ⟨"abc", "SKU1", 42⟩ s
      = { s with broadcast := [stockUpdateWire] } := by
    show broadcastJSONMessage (marshalStockUpdate ⟨"abc", "SKU1", 42⟩) s = _
    rw [hmar]
    simp [broadcastJSONMessage, hb, broadcastCap]
  rw [hs1]
  refine ⟨hmar, ?_, ?_⟩
  · exact deliver_char { s with broadcast := [stockUpdateWire] } stockUpdateWire [] hnd hopen rfl
  · intro c hc hroom
    simp only [fanoutEffect, if_pos hc, trySendTotal, if_pos hroom]

theorem stock_update_roundtrip_witness :
    marshalStockUpdate ⟨"abc", "SKU1", 42⟩ = stockUpdateWire ∧
    ((fanoutEffect stockUpdateWire []
        (broadcastStockUpdate ⟨"abc", "SKU1", 42⟩ st1)).chans 0).buf
      = (st1.chans 0).buf ++ [stockUpdateWire] := by
  have h := stock_update_roundtrip st1 reach_st1 rfl
  exact ⟨h.1, h.2.2 0 (by simp [st1, connectStep, initHub])
    (by simp [st1, connectStep, initHub, upd, SendChan.mk0, clientBufCap])⟩

/-- C7: the event is serialized exactly once per publish call —
`BroadcastStockUpdate` is one marshal application handed to the byte-level
`BroadcastJSONMessage`; the enqueued byte-sequence depends only on the
event (states agreeing on the fan-out queue enqueue identically, whatever
their registries hold, so encoding is independent of subscriber count); and
during fan-out the identical unmodified byte-sequence is offered to every
registered client's channel. -/
theorem encode_once_and_share (p : StockUpdatePayload) (s : HubState) :
    broadcastStockUpdate p s = broadcastJSONMessage (marshalStockUpdate p) s ∧
    (∀ t : HubState, t.broadcast = s.broadcast →
      (broadcastStockUpdate p t).broadcast = (broadcastStockUpdate p s).broadcast) ∧
    (∀ (m : Msg) (rest : List Msg), Reach s → s.broadcast = m :: rest →
      deliverStep s = some (fanoutEffect m rest s) ∧
      (∀ c ∈ s.registry, (fanoutEffect m rest s).chans c = trySendTotal m (s.chans c))) := by
  refine ⟨rfl, ?_, ?_⟩
  · intro t ht
    show (broadcastJSONMessage (marshalStockUpdate p) t).broadcast
        = (broadcastJSONMessage (marshalStockUpdate p) s).broadcast
    unfold broadcastJSONMessage
    rw [ht]
    split_ifs <;> simp [ht]
  · intro m rest hreach hb
    obtain ⟨hnd, hopen, hmem, hfreshch⟩ := reach_inv s hreach
    refine ⟨deliver_char s m rest hnd hopen hb, ?_⟩
    intro c hc
    simp only [fanoutEffect, if_pos hc]

theorem encode_once_and_share_witness :
    broadcastStockUpdate ⟨"a", "b", 1⟩ st1
      = broadcastJSONMessage (marshalStockUpdate ⟨"a", "b", 1⟩) st1 ∧
    deliverStep st2 = some (fanoutEffect "e" [] st2) := by
  have h1 := (encode_once_and_share ⟨"a", "b", 1⟩ st1).1
  have h2 := (encode_once_and_share ⟨"a", "b", 1⟩ st2).2.2 "e" [] reach_st2
    (by simp [st2, st1, broadcastJSONMessage, connectStep, initHub, broadcastCap])
  exact ⟨h1, h2.1⟩

/-- C8: per-subscriber FIFO — with the fan-out queue empty, publishing `e1`
then `e2` enqueues them in that order on the queue (both enqueues succeed),
and the coordination loop processes them one at a time in that order, so a
registered client with room for both ends up with `e1` appended before
`e2` in its outbound buffer. -/
theorem per_subscriber_fifo (s : HubState) (e1 e2 : Msg) (c : ClientId)
    (hreach : Reach s) (hc : c ∈ s.registry) (hb : s.broadcast = [])
    (hroom : (s.chans c).buf.length + 2 ≤ clientBufCap) :
    (broadcastJSONMessage e2 (broadcastJSONMessage e1 s)).broadcast = [e1, e2] ∧
    deliverStep (broadcastJSONMessage e2 (broadcastJSONMessage e1 s)) =
      some (fanoutEffect e1 [e2] (broadcastJSONMessage e2 (broadcastJSONMessage e1 s))) ∧
    deliverStep (fanoutEffect e1 [e2] (broadcastJSONMessage e2 (broadcastJSONMessage e1 s))) =
      some (fanoutEffect e2 []
        (fanoutEffect e1 [e2] (broadcastJSONMessage e2 (broadcastJSONMessage e1 s)))) ∧
    ((fanoutEffect e2 []
        (fanoutEffect e1 [e2] (broadcastJSONMessage e2 (broadcastJSONMessage e1 s)))).chans c).buf
      = (s.chans c).buf ++ [e1, e2] := by
  obtain ⟨hnd, hopen, hmem, hfreshch⟩ := reach_inv s hreach
  have h2 : broadcastJSONMessage e2 (broadcastJSONMessage e1 s)
      = { s with broadcast := [e1, e2] } := by
    simp [broadcastJSONMessage, hb, broadcastCap]
  rw [h2]
  have hlen1 : (s.chans c).buf.length < clientBufCap := by omega
  have hlen2 : ((s.chans c).buf ++ [e1]).length < clientBufCap := by
    rw [List.length_append, List.length_singleton]
    omega
  have hd1 : deliverStep { s with broadcast := [e1, e2] } =
      some (fanoutEffect e1 [e2] { s with broadcast := [e1, e2] }) :=
    deliver_char { s with broadcast := [e1, e2] } e1 [e2] hnd hopen rfl
  have hd2 : deliverStep (fanoutEffect e1 [e2] { s with broadcast := [e1, e2] }) =
      some (fanoutEffect e2 []
        (fanoutEffect e1 [e2] { s with broadcast := [e1, e2] })) := by
    refine deliver_char _ e2 [] hnd ?_ rfl
    intro d hd
    have hd' : d ∈ s.registry := hd
    show (if d ∈ s.registry then trySendTotal e1 (s.chans d) else s.chans d).closed = false
    rw [if_pos hd', trySendTotal_closed]
    exact hopen d hd'
  refine ⟨rfl, hd1, hd2, ?_⟩
  simp only [fanoutEffect, if_pos hc, trySendTotal, if_pos hlen1, if_pos hlen2]
  simp

theorem per_subscriber_fifo_witness :
    (broadcastJSONMessage "b" (broadcastJSONMessage "a" st1)).broadcast = ["a", "b"] ∧
    ((fanoutEffect "b" []
        (fanoutEffect "a" ["b"] (broadcastJSONMessage "b" (broadcastJSONMessage "a" st1)))).chans 0).buf
      = (st1.chans 0).buf ++ ["a", "b"] := by
  have h := per_subscriber_fifo st1 "a" "b" 0 reach_st1
    (by simp [st1, connectStep, initHub]) rfl
    (by simp [st1, connectStep, initHub, upd, SendChan.mk0, clientBufCap])
  exact ⟨h.1, h.2.2.2⟩

end InventoryHub
